import Mathlib

set_option linter.unusedSectionVars false

/-!
Verification of the discrete-interpolator engine of LoopStructural
(src/LoopStructural/interpolators/_discrete_interpolator.py) against its
natural-language specification.

The Python code is shallowly embedded over an arbitrary linear ordered field
`F`.  An IEEE floating-point value is `FV F := Option F`, where `none` models
NaN and `some x` a finite value; the arithmetic operations propagate NaN and
every comparison with NaN is false, exactly as in IEEE-754 semantics used by
numpy.  The external collaborators (the scipy sparse linear-algebra backend
and the mesh Support) are passed in as oracle functions, mirroring the spec's
statement that the engine "only assembles inputs for an external
linear-algebra backend and interprets its outputs".

Since the square root of a rational is in general irrational, the per-row
Euclidean norms computed by `np.linalg.norm(A, axis=1)` are supplied to the
embedded `add_constraints_to_least_squares` as an argument `lengths`,
accompanied in every theorem by the hypothesis `isRowNorms A lengths = true`
which characterises them by the defining property of the Euclidean norm
(NaN iff the row contains NaN, otherwise the nonnegative square root of the
row's sum of squares).
-/

namespace DiscreteInterp

variable {F : Type} [LinearOrderedField F] [DecidableEq F]

/-- A floating-point value: `none` is NaN, `some x` a finite value. -/
abbrev FV (F : Type) := Option F

/-- Addition with NaN propagation. -/
def addF : FV F → FV F → FV F
  | some a, some b => some (a + b)
  | _, _ => none

/-- Multiplication with NaN propagation. -/
def mulF : FV F → FV F → FV F
  | some a, some b => some (a * b)
  | _, _ => none

/-- Division with NaN propagation.  Division by zero yields NaN; in the code
every division is guarded by a strict positivity test on the denominator, so
this case is never exercised. -/
def divF : FV F → FV F → FV F
  | some a, some b => if b = 0 then none else some (a / b)
  | _, _ => none

/-- IEEE `x > 0`: false when `x` is NaN (numpy `length > 0`). -/
def gtZeroF : FV F → Bool
  | none => false
  | some x => decide (0 < x)

/-- IEEE equality test `a == b`: any comparison involving NaN is false.
This is the semantics of numpy elementwise `==`. -/
def eqF : FV F → FV F → Bool
  | some a, some b => decide (a = b)
  | _, _ => false

/-- `np.isnan` on one value. -/
def isNaNF (x : FV F) : Bool := x.isNone

/-- `np.any(np.isnan(row))`. -/
def hasNaNRow (r : List (Option α)) : Bool := r.any (fun x => x.isNone)

/-- `np.any(np.isnan(matrix))`. -/
def hasNaNMat (m : List (List (Option α))) : Bool := m.any hasNaNRow

/-- Sum of a list of floats (NaN-propagating). -/
def sumF (l : List (FV F)) : FV F := l.foldr addF (some 0)

/-- Sum of squares of a row (NaN-propagating); the square of the Euclidean
norm `np.linalg.norm(row)`. -/
def sumSqF (l : List (FV F)) : FV F := sumF (l.map (fun x => mulF x x))

/-- Sum of squares of a NaN-free row over the field itself. -/
def sumSq (l : List F) : F := (l.map (fun x => x * x)).sum

/-- `ℓ` is the Euclidean norm of row `r`: NaN when the row contains NaN,
otherwise the nonnegative square root of the row's sum of squares. -/
def isRowNorm (r : List (FV F)) (ℓ : FV F) : Bool :=
  match sumSqF r, ℓ with
  | none, none => true
  | some s, some v => decide (0 ≤ v) && decide (v * v = s)
  | _, _ => false

/-- `ls` is the list of Euclidean norms of the rows of `m`
(`np.linalg.norm(A, axis=1)`). -/
def isRowNorms (m : List (List (FV F))) (ls : List (FV F)) : Bool :=
  (m.length == ls.length) && (List.zip m ls).all (fun p => isRowNorm p.1 p.2)

/-! ## Region maps

`region_map` (property, lines 93-97): the target array is created with
`np.zeros(n_nodes)`, then the active positions receive `0..nx-1` in ascending
order; inactive positions keep the initial fill value `0`.

`gi` (built inside `add_equality_constraints` and
`add_inequality_constraints_to_matrix`): the array is first filled with `-1`,
then the active positions receive `0..nx-1`; inactive positions keep `-1`. -/

/-- Worker for `region_map`: `k` is the next compact index to assign. -/
def region_map_go : List Bool → ℕ → List ℤ
  | [], _ => []
  | b :: rest, k =>
    if b then (k : ℤ) :: region_map_go rest (k + 1) else 0 :: region_map_go rest k

/-- The `region_map` property: zeros-initialised, actives renumbered
`0..nx-1` in ascending global order (source lines 93-97). -/
def region_map (region : List Bool) : List ℤ := region_map_go region 0

/-- Worker for `gi`: `k` is the next compact index to assign. -/
def gi_map_go : List Bool → ℕ → List ℤ
  | [], _ => []
  | b :: rest, k =>
    if b then (k : ℤ) :: gi_map_go rest (k + 1) else (-1) :: gi_map_go rest k

/-- The sentinel-filled node-to-region index map `gi` built inside
`add_equality_constraints` (source lines 384-386): `-1` for inactive nodes,
`0..nx-1` ascending for active ones. -/
def gi_map (region : List Bool) : List ℤ := gi_map_go region 0

/-- numpy boolean-mask selection `l[m]`. -/
def maskSelect (l : List α) (m : List Bool) : List α :=
  ((List.zip l m).filter (fun p => p.2)).map Prod.fst

/-! ## State of the interpolator -/

/-- A registered soft-constraint block: the data stored by
`add_constraints_to_least_squares` under one name.  `Avals`/`idc` are the
row-major values and column indices handed to `sparse.coo_matrix`, whose
declared shape is `(nRows, nCols)`. -/
structure SoftBlock (F : Type) where
  nRows : ℕ
  nCols : ℕ
  Avals : List (List (FV F))
  idc : List (List ℤ)
  b : List (FV F)
  w : List F
  deriving DecidableEq

/-- A registered hard equality block: the data stored by
`add_equality_constraints` under one name. -/
structure EqBlock (F : Type) where
  A : List F
  B : List F
  col : List ℤ
  row : List ℕ
  deriving DecidableEq

/-- The matrix assembled by `build_matrix` (a stacked sparse COO matrix). -/
structure AssembledMat (F : Type) where
  rows : ℕ
  cols : ℕ
  entries : List (ℕ × ℕ × FV F)

/-- The `solver` argument of `solve_system` / the `self.solver` attribute:
`None`, a strategy-name string, or a caller-supplied callable. -/
inductive SolverArg (F : Type) where
  | noneArg : SolverArg F
  | strArg : String → SolverArg F
  | fnArg : (AssembledMat F → List (FV F) → List (FV F)) → SolverArg F

/-- The mutable state of a `DiscreteInterpolator`.  `nodes` are the support's
nodes; `region` is the boolean mask `region_function(support.nodes)`; `logs`
records emitted warnings/errors. -/
structure State (F : Type) where
  nodes : List (List (FV F))
  region : List Bool
  c : List (FV F)
  up_to_date : Bool
  solver : SolverArg F
  constraints : List (String × SoftBlock F)
  equal_constraints : List (String × EqBlock F)
  eq_const_c : ℕ
  logs : List String

/-- `support.n_nodes`. -/
def n_nodes (st : State F) : ℕ := st.nodes.length

/-- `nx` property (lines 69-78): `len(self.support.nodes[self.region])`. -/
def nx (st : State F) : ℕ := (maskSelect st.nodes st.region).length

/-- The state right after `__init__` with a given region mask.  The source
`__init__` installs the all-true `region_function`; subclasses (outside this
file's sources) configure the actual region predicate, so the evaluated mask
is taken as a parameter here. -/
def initStateR (nodes : List (List (FV F))) (region : List Bool) (utd : Bool) :
    State F :=
  { nodes := nodes
    region := region
    c := List.replicate nodes.length (some 0)
    up_to_date := utd
    solver := SolverArg.strArg "cg"
    constraints := []
    equal_constraints := []
    eq_const_c := 0
    logs := [] }

/-- The state right after `__init__` verbatim: region mask all true. -/
def initState (nodes : List (List (FV F))) (utd : Bool) : State F :=
  initStateR nodes (List.replicate nodes.length true) utd

/-! ## Python string helpers for the name-collision loop

`add_constraints_to_least_squares` resolves name collisions with

    base_name = name
    while name in self.constraints:
        count = 0
        if "_" in name:
            count = int(name.split("_")[1]) + 1
        name = base_name + "_{0}".format(count)   (format with empty braces)

The string operations are embedded over `List Char` so that they reduce in
the kernel. -/

/-- Python `str.split` on a single-character separator (worker). -/
def splitCharAux (sep : Char) : List Char → List Char → List (List Char)
  | [], acc => [acc.reverse]
  | ch :: rest, acc =>
    if ch == sep then acc.reverse :: splitCharAux sep rest []
    else splitCharAux sep rest (ch :: acc)

/-- Python `name.split("_")`. -/
def pySplitUnderscore (s : String) : List String :=
  (splitCharAux '_' s.toList []).map (fun cs => String.mk cs)

/-- Python `"_" in name`. -/
def containsUnderscore (s : String) : Bool := s.toList.any (fun ch => ch == '_')

/-- Decimal digit value of a character. -/
def digitVal (c : Char) : ℕ := c.toNat - 48

/-- Parse a nonempty all-digit string (worker). -/
def parseNatAux : List Char → ℕ → Option ℕ
  | [], n => some n
  | c :: rest, n =>
    if c.isDigit then parseNatAux rest (n * 10 + digitVal c) else none

/-- Python `int(s)` restricted to the nonnegative decimal literals that the
collision loop itself generates; `none` models the `ValueError` raised on a
non-numeric suffix. -/
def pyInt (s : String) : Option ℕ :=
  match s.toList with
  | [] => none
  | l => parseNatAux l 0

/-- The `while name in self.constraints` loop (source lines 206-211).  `fuel`
bounds the iterations: each collision with an already-suffixed name strictly
increases the numeric suffix, so `#constraints + 2` steps always suffice.
`none` models a `ValueError` from `int` (non-numeric suffix) or an
unreachable fuel exhaustion. -/
def resolve_name (keys : List String) (base : String) :
    ℕ → String → Option String
  | 0, _ => none
  | fuel + 1, name =>
    if keys.contains name then
      match (if containsUnderscore name then
              (((pySplitUnderscore name).get? 1).bind pyInt).map (· + 1)
             else some 0) with
      | some count =>
        resolve_name keys base fuel (base ++ "_" ++ Nat.repr count)
      | none => none
    else some name

/-! ## add_constraints_to_least_squares (source lines 147-220)

Only the 2-D input path is embedded: a 3-D block is reshaped row-major to
2-D at lines 177-183 before any processing, so `A : List (List (FV F))`
represents the post-reshape matrix. -/

/-- numpy shape equality for the (rectangular) 2-D arrays `A` and `idc`. -/
def shapeEqB (a : List (List α)) (b : List (List β)) : Bool :=
  (a.length == b.length) && ((a.map List.length) == (b.map List.length))

/-- `B[length > 0] /= length[length > 0]` (source line 187). -/
def normB (B : List (FV F)) (lengths : List (FV F)) : List (FV F) :=
  List.zipWith (fun b ℓ => if gtZeroF ℓ then divF b ℓ else b) B lengths

/-- `A[mask, :] = 0` where `mask = np.any(np.isnan(A), axis=1)`
(source lines 189-190). -/
def zeroNaNRows (A : List (List (FV F))) : List (List (FV F)) :=
  A.map (fun r => if hasNaNRow r then r.map (fun _ => (some 0 : FV F)) else r)

/-- `A[length > 0, :] /= length[length > 0, None]` (source line 191). -/
def normA (A1 : List (List (FV F))) (lengths : List (FV F)) :
    List (List (FV F)) :=
  List.zipWith (fun r ℓ => if gtZeroF ℓ then r.map (fun x => divF x ℓ) else r)
    A1 lengths

/-- The weight argument `w`: a scalar, a numpy array, or anything else
(which raises). -/
inductive WeightArg (F : Type) where
  | scalar : F → WeightArg F
  | arr : List F → WeightArg F
  | other : WeightArg F

/-- Scalar broadcast `w = np.ones(A.shape[0]) * w`; a non-scalar non-array
raises `BaseException` (source lines 192-195). -/
def weightArr : WeightArg F → ℕ → Except String (List F)
  | WeightArg.scalar x, n => Except.ok (List.replicate n x)
  | WeightArg.arr ws, _ => Except.ok ws
  | WeightArg.other, _ => Except.error "w must be a numpy array"

/-- Conversion of one column index for `sparse.coo_matrix`: NaN and
out-of-range indices raise inside scipy. -/
def toIdx (bound : ℕ) : Option ℤ → Except String ℤ
  | none => Except.error "ValueError: cannot convert float NaN to integer"
  | some z =>
    if z < 0 then Except.error "ValueError: negative column index found"
    else if bound ≤ z.toNat then
      Except.error "ValueError: column index exceeds matrix dimensions"
    else Except.ok z

/-- Conversion of the whole column-index array. -/
def toIdxMat (bound : ℕ) (idc : List (List (Option ℤ))) :
    Except String (List (List ℤ)) :=
  idc.mapM (fun row => row.mapM (toIdx bound))

/-- The warning emitted at source line 203.  The subsequent `return` is
commented out in the source, so this is log-only. -/
def nanWarnMsg (name : String) : String :=
  "Constraints contain nan not adding constraints: " ++ name

/-- Log update for the NaN check at source lines 202-204 (`idc` is checked
unprocessed; `A` and `B` after normalisation/zeroing). -/
def nanLogs (logs : List String) (name : String) (idc : List (List (Option ℤ)))
    (A2 : List (List (FV F))) (B1 : List (FV F)) : List String :=
  if hasNaNMat idc || hasNaNMat A2 || hasNaNRow B1 then
    logs ++ [nanWarnMsg name]
  else logs

/-- `add_constraints_to_least_squares(self, A, B, idc, w, name)` (source
lines 147-220), on the 2-D path.  `lengths` is `np.linalg.norm(A, axis=1)`,
supplied with its characterising property `isRowNorms` in the theorems.
The mismatched-shape case logs and returns without inserting; a bad weight
raises; the NaN check only logs (its `return` is commented out) and the
block is inserted under the collision-resolved name. -/
def add_constraints_to_least_squares (st : State F) (A : List (List (FV F)))
    (B : List (FV F)) (idc : List (List (Option ℤ))) (lengths : List (FV F))
    (w : WeightArg F) (name : String) : Except String (State F) :=
  if shapeEqB A idc = false then
    Except.ok { st with logs := st.logs ++
      ["Cannot add constraints: A and indexes have different shape : " ++ name] }
  else if (lengths.length != A.length) || (B.length != A.length) then
    Except.error "IndexError: boolean index did not match indexed array"
  else
    let B1 := normB B lengths
    let A2 := normA (zeroNaNRows A) lengths
    match weightArr w A.length with
    | Except.error e => Except.error e
    | Except.ok wArr =>
      if wArr.length != A.length then
        Except.error "Weight array does not match number of constraints"
      else
        match resolve_name (st.constraints.map Prod.fst) name
            (st.constraints.length + 2) name with
        | none => Except.error "ValueError: invalid literal for int"
        | some nm =>
          match toIdxMat (nx st) idc with
          | Except.error e => Except.error e
          | Except.ok idcN =>
            Except.ok { st with
              constraints := st.constraints ++
                [(nm, ⟨A.length, nx st, A2, idcN, B1, wArr⟩)],
              logs := nanLogs st.logs name idc A2 B1 }

/-! ## add_equality_constraints (source lines 366-397) -/

/-- Python-dict insertion: replace in place when the key exists, else
append. -/
def dictInsert (l : List (String × α)) (k : String) (v : α) :
    List (String × α) :=
  if (l.map Prod.fst).contains k then
    l.map (fun p => if p.1 == k then (k, v) else p)
  else l ++ [(k, v)]

/-- `add_equality_constraints(self, node_idx, values, name)`: region-maps the
node indices through the sentinel map `gi`, silently drops entries mapped to
`-1`, stores the surviving unit coefficients/targets/columns with
consecutively assigned rows, and advances the shared row counter
`eq_const_c` by the surviving count. -/
def add_equality_constraints (st : State F) (node_idx : List ℕ)
    (values : List F) (name : String) : Except String (State F) :=
  if node_idx.any (fun i => st.region.length ≤ i) then
    Except.error "IndexError: index out of bounds"
  else if values.length != node_idx.length then
    Except.error "IndexError: boolean index did not match indexed array"
  else
    let g := gi_map st.region
    let idc := node_idx.map (fun i => g.getD i 0)
    let surv := (List.zip idc values).filter (fun p => p.1 != -1)
    let k := surv.length
    Except.ok { st with
      equal_constraints := dictInsert st.equal_constraints name
        ⟨List.replicate k 1, surv.map Prod.snd, surv.map Prod.fst,
         List.range' st.eq_const_c k⟩,
      eq_const_c := st.eq_const_c + k }

/-- The shape `(self.eq_const_c, self.nx)` of the equality coefficient
matrix `C` built by `add_equality_block` (source lines 470-474); `none` when
there are no equality constraints, in which case `add_equality_block`
returns nothing (source line 444). -/
def eq_block_shape (st : State F) : Option (ℕ × ℕ) :=
  if st.equal_constraints.isEmpty then none else some (st.eq_const_c, nx st)

/-! ## build_matrix (source lines 415-441) -/

/-- COO entries of one block weighted row-wise
(`c['matrix'].multiply(c['w'][:, None])`). -/
def weightedEntries (bl : SoftBlock F) : List (ℕ × ℕ × FV F) :=
  (List.enum (List.zip bl.Avals bl.idc)).flatMap (fun p =>
    (List.zip p.2.1 p.2.2).map (fun q =>
      (p.1, q.2.toNat, mulF q.1 (some (bl.w.getD p.1 0)))))

/-- `sparse.vstack`: concatenate block entries with accumulated row
offsets. -/
def stackEntries : List (SoftBlock F) → ℕ → List (ℕ × ℕ × FV F)
  | [], _ => []
  | bl :: rest, off =>
    (weightedEntries bl).map (fun e => (off + e.1, e.2.1, e.2.2)) ++
      stackEntries rest (off + bl.nRows)

/-- `build_matrix(self)`: skip blocks with an empty weight array, weight each
remaining block's rows and right-hand side, and stack them vertically.
`none` models the `ValueError` of `sparse.vstack`/`np.hstack` on an empty
block list or on mismatched column counts. -/
def build_matrix (st : State F) : Option (AssembledMat F × List (FV F)) :=
  match st.constraints.filter (fun p => !p.2.w.isEmpty) with
  | [] => none
  | p0 :: rest =>
    if rest.all (fun p => p.2.nCols == p0.2.nCols) then
      some ({ rows := ((p0 :: rest).map (fun p => p.2.nRows)).sum,
              cols := p0.2.nCols,
              entries := stackEntries ((p0 :: rest).map Prod.snd) 0 },
            ((p0 :: rest).map (fun p =>
              List.zipWith mulF p.2.b (p.2.w.map some))).flatten)
    else none

/-! ## solve_system (source lines 492-562) and update (lines 564-581)

The scipy backends `sparse.linalg.cg` and `sparse.linalg.lsmr` are external
(spec section 1) and are passed in as oracles returning `(x, info)` resp.
`(x, istop)` for the assembled system. -/

/-- `self.c = np.zeros(n_nodes); self.c[:] = np.nan` (source lines
516-517). -/
def resetC (st : State F) : State F :=
  { st with c := List.replicate (n_nodes st) (none : FV F) }

/-- `if solver not in ['cg', 'lsmr']: solver = 'cg'` (source lines
526-531). -/
def normalizeStrategy : SolverArg F → SolverArg F
  | SolverArg.strArg s =>
    if s = "cg" ∨ s = "lsmr" then SolverArg.strArg s
    else SolverArg.strArg "cg"
  | sv => sv

/-- Is the solver argument a callable or a string?  (After normalisation any
string runs a built-in strategy, so exactly these arguments reach a
`return True`.) -/
def isCallableOrStr : SolverArg F → Bool
  | SolverArg.noneArg => false
  | _ => true

/-- The solver dispatch of `solve_system` (source lines 519-562), after the
`c` reset and the matrix assembly.  A callable is trusted verbatim; `cg`
always keeps the backend's result (warning on nonzero info); `lsmr`
interprets `istop`: 1/2/4/5 keep the result, 0 only warns, 3/6 warn and drop
the result (leaving the all-NaN `c`), 7 warns and keeps; every recognised
strategy sets `up_to_date` and returns `True`; anything else (`None`)
returns `False` with `up_to_date` untouched. -/
def solveDispatch (cgO lsmrO : AssembledMat F → List (FV F) → List (FV F) × ℤ)
    (solver : SolverArg F) (st : State F) (A : AssembledMat F)
    (b : List (FV F)) : State F × Bool :=
    match solver with
    | SolverArg.fnArg f =>
      let logs1 := st.logs ++ ["Using custom solver"]
      ({ st with c := f A b, up_to_date := true, logs := logs1 }, true)
    | _ =>
      match normalizeStrategy solver with
      | SolverArg.strArg s =>
        if s = "cg" then
          let res := cgO A b
          let logs1 := if 0 < res.2 then
              st.logs ++ ["CG reached iteration limit and did not converge"]
            else st.logs
          ({ st with c := res.1, up_to_date := true, logs := logs1 }, true)
        else if s = "lsmr" then
          let res := lsmrO A b
          if res.2 = 1 ∨ res.2 = 4 ∨ res.2 = 2 ∨ res.2 = 5 then
            ({ st with c := res.1, up_to_date := true }, true)
          else if res.2 = 0 then
            let logs1 := st.logs ++ ["Solution to least squares problem is all zeros"]
            ({ st with up_to_date := true, logs := logs1 }, true)
          else if res.2 = 3 ∨ res.2 = 6 then
            let logs1 := st.logs ++ ["COND(A) seems to be greater than CONLIM, check input data"]
            ({ st with up_to_date := true, logs := logs1 }, true)
          else if res.2 = 7 then
            let logs1 := st.logs ++ ["LSMR reached iteration limit and did not converge"]
            ({ st with c := res.1, up_to_date := true, logs := logs1 }, true)
          else ({ st with up_to_date := true }, true)
        else (st, false)
      | _ => (st, false)

/-- `solve_system(self, solver, solver_kwargs)` (source lines 492-562):
reset `c` to all-NaN, build the matrix (a `ValueError` propagates when there
is no block to stack), then dispatch on the solver argument. -/
def solve_system (cgO lsmrO : AssembledMat F → List (FV F) → List (FV F) × ℤ)
    (solver : SolverArg F) (st0 : State F) :
    Except String (State F × Bool) :=
  let st := resetC st0
  match build_matrix st with
  | none => Except.error "ValueError: blocks must be 2-D"
  | some (A, b) => Except.ok (solveDispatch cgO lsmrO solver st A b)

/-- `update(self)`: `False` when no solver is configured; re-setup and
re-solve when stale; implicitly return `None` (no state change, no solve)
when `up_to_date` is already true.  `setup` is the abstract
`setup_interpolator` hook implemented by subclasses. -/
def update (setup : State F → State F)
    (cgO lsmrO : AssembledMat F → List (FV F) → List (FV F) × ℤ)
    (st : State F) : Except String (State F × Option Bool) :=
  match st.solver with
  | SolverArg.noneArg => Except.ok (st, some false)
  | _ =>
    if st.up_to_date = false then
      match solve_system cgO lsmrO (setup st).solver (setup st) with
      | Except.error e => Except.error e
      | Except.ok (st2, r) => Except.ok (st2, some r)
    else Except.ok (st, none)

/-! ## evaluate_value (source lines 583-603) -/

/-- `mask = np.any(evaluation_points == np.nan, axis=1)` (source line 599):
elementwise IEEE comparison of each coordinate with NaN. -/
def nanEqMask (pts : List (List (FV F))) : List Bool :=
  pts.map (fun p => p.any (fun coord => eqF coord none))

/-- `evaluated = np.zeros(n); evaluated[~mask] = vals`: masked slots keep 0,
unmasked slots take the support's values in order. -/
def scatterVals : List Bool → List (FV F) → List (FV F)
  | [], _ => []
  | m :: rest, vals =>
    if m then some 0 :: scatterVals rest vals
    else
      match vals with
      | v :: vs => v :: scatterVals rest vs
      | [] => some 0 :: scatterVals rest []

/-- `evaluate_value(self, locations)`: update lazily, mask out
NaN-containing points, query the support on the remaining points, and
backfill masked slots with 0.  `supportEval` is the support's
`evaluate_value(points, c)` oracle. -/
def evaluate_value (setup : State F → State F)
    (cgO lsmrO : AssembledMat F → List (FV F) → List (FV F) × ℤ)
    (supportEval : List (List (FV F)) → List (FV F) → List (FV F))
    (st : State F) (locations : List (List (FV F))) :
    Except String (State F × List (FV F)) :=
  match update setup cgO lsmrO st with
  | Except.error e => Except.error e
  | Except.ok (st1, _) =>
    let mask := nanEqMask locations
    let kept := ((List.zip locations mask).filter (fun p => !p.2)).map Prod.fst
    let evaluated :=
      if 0 < kept.length then scatterVals mask (supportEval kept st1.c)
      else List.replicate locations.length (some 0)
    Except.ok (st1, evaluated)

/-- States reachable from a freshly constructed interpolator by any
sequence of (accepted) `add_constraints_to_least_squares` calls.  The region
mask of the initial state is arbitrary (it is configured by subclasses) but
has one entry per support node. -/
inductive ReachableSoft : State F → Prop where
  | init : ∀ (nodes : List (List (FV F))) (region : List Bool) (utd : Bool),
      region.length = nodes.length →
      ReachableSoft (initStateR nodes region utd)
  | step : ∀ (st : State F) (A : List (List (FV F))) (B : List (FV F))
      (idc : List (List (Option ℤ))) (lengths : List (FV F))
      (w : WeightArg F) (name : String) (st' : State F),
      ReachableSoft st →
      add_constraints_to_least_squares st A B idc lengths w name =
        Except.ok st' →
      ReachableSoft st'

/-! ## Concrete fixtures used by witnesses and counterexamples -/

/-- A concrete 2-node interpolator state holding one registered
soft-constraint block (so that `build_matrix` succeeds). -/
def stFix : State ℚ :=
  { nodes := [[some 0, some 0, some 0], [some 1, some 1, some 1]]
    region := [true, true]
    c := [some 0, some 0]
    up_to_date := false
    solver := SolverArg.strArg "cg"
    constraints := [("blk",
      ⟨2, 2, [[some 1, some 0], [some 0, some 1]], [[0, 1], [0, 1]],
       [some 1, some 2], [1, 1]⟩)]
    equal_constraints := []
    eq_const_c := 0
    logs := [] }

/-- A cg backend oracle returning the solution `[2, 2]` with info 0. -/
def cgW : AssembledMat ℚ → List (FV ℚ) → List (FV ℚ) × ℤ :=
  fun _ _ => ([some 2, some 2], 0)

/-- An lsmr backend oracle returning istop 3 (ill-conditioning). -/
def lsmrW : AssembledMat ℚ → List (FV ℚ) → List (FV ℚ) × ℤ :=
  fun _ _ => ([some 5, some 5], 3)

/-- The state after a successful cg solve on `stFix` with backend `cgW`. -/
def st1Fix : State ℚ :=
  { resetC stFix with c := [some 2, some 2], up_to_date := true }

/-! ## Lemmas about the region maps -/

theorem region_map_go_length (region : List Bool) (k : ℕ) :
    (region_map_go region k).length = region.length := by
  induction region generalizing k with
  | nil => rfl
  | cons b rest ih =>
    simp only [region_map_go]
    split <;> simp [ih]

theorem gi_map_go_length (region : List Bool) (k : ℕ) :
    (gi_map_go region k).length = region.length := by
  induction region generalizing k with
  | nil => rfl
  | cons b rest ih =>
    simp only [gi_map_go]
    split <;> simp [ih]

theorem maskSelect_length_eq_count (l : List α) (m : List Bool) :
    (h : l.length = m.length) → (maskSelect l m).length = m.count true := by
  induction l generalizing m with
  | nil =>
    intro h
    cases m with
    | nil => rfl
    | cons b r => simp at h
  | cons a rest ih =>
    intro h
    cases m with
    | nil => simp at h
    | cons b r =>
      simp only [List.length_cons, Nat.succ_inj] at h
      cases b with
      | false =>
        simp only [maskSelect, List.zip_cons_cons, List.filter_cons]
        simpa [maskSelect, List.count_cons] using ih r h
      | true =>
        simp only [maskSelect, List.zip_cons_cons, List.filter_cons]
        simp only [List.count_cons]
        have := ih r h
        simp only [maskSelect] at this
        simp [this]

/-- The values of `region_map_go region k` at the active positions are
exactly `k, k+1, ...` in ascending order. -/
theorem maskSelect_region_map_go (region : List Bool) (k : ℕ) :
    maskSelect (region_map_go region k) region =
      (List.range' k (region.count true)).map (fun j => (j : ℤ)) := by
  induction region generalizing k with
  | nil => rfl
  | cons b rest ih =>
    cases b with
    | false =>
      have hgo : region_map_go (false :: rest) k = 0 :: region_map_go rest k := by
        simp [region_map_go]
      rw [hgo]
      simp only [maskSelect, List.zip_cons_cons, List.filter_cons]
      simpa [maskSelect, List.count_cons] using ih k
    | true =>
      have hgo : region_map_go (true :: rest) k =
          (k : ℤ) :: region_map_go rest (k + 1) := by
        simp [region_map_go]
      rw [hgo]
      simp only [maskSelect, List.zip_cons_cons, List.filter_cons]
      simp only [List.count_cons, if_pos rfl]
      have := ih (k + 1)
      simp only [maskSelect] at this
      simp [this, List.range'_succ]

/-- Inactive positions of `region_map` hold the zero fill value. -/
theorem region_map_go_inactive (region : List Bool) (k : ℕ) (i : ℕ)
    (hi : i < region.length) (hb : region.get ⟨i, hi⟩ = false) :
    (region_map_go region k).getD i (-1) = 0 := by
  induction region generalizing k i with
  | nil => simp at hi
  | cons b rest ih =>
    cases i with
    | zero =>
      simp only [List.get] at hb
      subst hb
      simp [region_map_go]
    | succ j =>
      simp only [List.length_cons, Nat.succ_lt_succ_iff] at hi
      simp only [List.get] at hb
      simp only [region_map_go]
      split
      · simpa [List.getD_cons_succ] using ih (k + 1) j hi hb
      · simpa [List.getD_cons_succ] using ih k j hi hb

/-- C3 counterexample: with two nodes and a region predicate selecting only
the second node, the `region_map` property is `[0, 0]`: the inactive node 0
is mapped to the zero fill value of `np.zeros`, not to the sentinel `-1`
required by the claim. -/
theorem region_map_sentinel_counterexample :
    region_map [false, true] = [0, 0] ∧
      (region_map [false, true]).getD 0 (-1) ≠ -1 := by
  decide

/-- C3 (amended): for every region mask over the support's nodes, `nx` equals
the number of active nodes, the `region_map` property assigns the active
global indices the compact indices `0..nx-1` in ascending global order (a
bijection onto `[0, nx)`), and every inactive node is mapped to `0` (the
`np.zeros` fill value) — not to the sentinel `-1` stated in the claim. -/
theorem region_map_spec (nodes : List (List (FV F))) (region : List Bool)
    (utd : Bool) (h : region.length = nodes.length) :
    nx (initStateR nodes region utd) = region.count true
    ∧ maskSelect (region_map region) region =
        (List.range (region.count true)).map (fun j => (j : ℤ))
    ∧ (region_map region).length = region.length
    ∧ ∀ i, (hi : i < region.length) → region.get ⟨i, hi⟩ = false →
        (region_map region).getD i (-1) = 0 := by
  refine ⟨?_, ?_, region_map_go_length region 0, ?_⟩
  · exact maskSelect_length_eq_count nodes region h.symm
  · have := maskSelect_region_map_go region 0
    simpa [region_map, List.range_eq_range'] using this
  · intro i hi hb
    exact region_map_go_inactive region 0 i hi hb

/-- C3 witness: a concrete 3-node support with the strict-subset region
`[false, true, true]`: `nx = 2`, the active nodes are renumbered `[0, 1]`,
and the inactive node is mapped to `0`. -/
theorem region_map_spec_witness :
    nx (initStateR ([[some 0], [some 0], [some 0]] : List (List (FV ℚ)))
        [false, true, true] false) = 2
    ∧ maskSelect (region_map [false, true, true]) [false, true, true] =
        [(0 : ℤ), 1]
    ∧ (region_map [false, true, true]).getD 0 (-1) = 0 := by
  have h := region_map_spec ([[some 0], [some 0], [some 0]] :
    List (List (FV ℚ))) [false, true, true] false (by decide)
  exact ⟨h.1.trans (by decide), (h.2.1).trans (by decide),
    h.2.2.2 0 (by decide) (by decide)⟩

/-! ## C1: the NaN mask of evaluate_value -/

theorem eqF_nan (x : FV F) : eqF x none = false := by
  cases x <;> rfl

theorem any_eqF_nan (p : List (FV F)) :
    (p.any (fun coord => eqF coord none)) = false := by
  induction p with
  | nil => rfl
  | cons c cs ih => simp [List.any_cons, eqF_nan, ih]

theorem nanEqMask_all_false (pts : List (List (FV F))) :
    nanEqMask pts = List.replicate pts.length false := by
  unfold nanEqMask
  induction pts with
  | nil => rfl
  | cons p rest ih => simp [any_eqF_nan, ih, List.replicate_succ]

/-- C1: the claim is false and the code contradicts its own intent.  The mask
`np.any(evaluation_points == np.nan, axis=1)` is identically false (IEEE
comparison with NaN never holds), so a NaN-containing point is NOT masked out
of the Support query: on a concrete 2-point input whose first point has a NaN
coordinate, with a support oracle answering 7 for every query point, the NaN
point's output slot receives the support's value 7 rather than the claimed 0,
and the support is queried on both points. -/
theorem evaluate_value_nan_not_masked :
    (∀ pts : List (List (FV ℚ)),
        nanEqMask pts = List.replicate pts.length false)
    ∧ evaluate_value id cgW lsmrW
        (fun pts _ => List.replicate pts.length (some 7))
        (initStateR ([[some 0, some 0, some 0]] : List (List (FV ℚ)))
          [true] true)
        [[none, some 0, some 0], [some 1, some 2, some 3]]
      = Except.ok
          (initStateR ([[some 0, some 0, some 0]] : List (List (FV ℚ)))
            [true] true,
           [some 7, some 7]) :=
  ⟨fun pts => nanEqMask_all_false pts, rfl⟩

/-! ## C2: the NaN check of add_constraints_to_least_squares -/

/-- C2: the claim is false and the code contradicts its own log message.  On
a block whose right-hand side is `[nan]` (surviving normalisation untouched),
the code logs "Constraints contain nan not adding constraints" — but the
`return` below the warning is commented out, so the block IS inserted into
the soft-constraint registry, NaN and all. -/
theorem nan_block_still_inserted :
    (add_constraints_to_least_squares
        (initState ([[some 0, some 0, some 0]] : List (List (FV ℚ))) false)
        [[some 1]] [none] [[some 0]] [some 1] (WeightArg.scalar 1)
        "test").map
      (fun st => (st.constraints.map Prod.fst,
                  st.constraints.map (fun p => p.2.b), st.logs))
    = Except.ok (["test"], [[none]], [nanWarnMsg "test"]) := by
  rfl

/-! ## C8: the name-collision policy -/

/-- C8: adding three soft-constraint blocks all named "grad" to a fresh
interpolator stores them under the names "grad", "grad_0" and "grad_1", in
that order. -/
theorem name_collision_scenario :
    (((add_constraints_to_least_squares
          (initState ([[some 0, some 0, some 0]] : List (List (FV ℚ))) false)
          [[some 1]] [some 1] [[some 0]] [some 1] (WeightArg.scalar 1)
          "grad").bind
        (fun st => add_constraints_to_least_squares st [[some 1]] [some 1]
          [[some 0]] [some 1] (WeightArg.scalar 1) "grad")).bind
        (fun st => add_constraints_to_least_squares st [[some 1]] [some 1]
          [[some 0]] [some 1] (WeightArg.scalar 1) "grad")).map
      (fun st => st.constraints.map Prod.fst)
    = Except.ok ["grad", "grad_0", "grad_1"] := by
  rfl

/-! ## C4 and C10: the return value and reset behaviour of solve_system -/

/-- C4 counterexample: under the "lsmr" strategy with the backend signalling
istop = 3 (ill-conditioning), `solve_system` returns `True` even though the
newly computed solution `[5, 5]` is dropped and `c` keeps the all-NaN
pre-solve reset — no new solution was computed or accepted, so "returns true
iff a new solution was computed or accepted" is false. -/
theorem solve_system_lsmr_cond_counterexample :
    (solve_system cgW lsmrW (SolverArg.strArg "lsmr") stFix).map
        (fun p => (p.1.c, p.2))
      = Except.ok (([none, none] : List (FV ℚ)), true)
    ∧ ([none, none] : List (FV ℚ)) ≠ [some 5, some 5] :=
  ⟨rfl, by decide⟩

theorem solve_system_eq_dispatch (cgO lsmrO) (arg : SolverArg F)
    (st : State F) (M : AssembledMat F) (bv : List (FV F))
    (hp : build_matrix (resetC st) = some (M, bv)) :
    solve_system cgO lsmrO arg st =
      Except.ok (solveDispatch cgO lsmrO arg (resetC st) M bv) := by
  simp only [solve_system, hp]

theorem solveDispatch_lsmr (cgO lsmrO) (st : State F) (A : AssembledMat F)
    (b : List (FV F)) :
    solveDispatch cgO lsmrO (SolverArg.strArg "lsmr") st A b =
      (if (lsmrO A b).2 = 1 ∨ (lsmrO A b).2 = 4 ∨ (lsmrO A b).2 = 2 ∨
          (lsmrO A b).2 = 5 then
        ({ st with c := (lsmrO A b).1, up_to_date := true }, true)
      else if (lsmrO A b).2 = 0 then
        ({ st with
            up_to_date := true
            logs := st.logs ++
              ["Solution to least squares problem is all zeros"] }, true)
      else if (lsmrO A b).2 = 3 ∨ (lsmrO A b).2 = 6 then
        ({ st with
            up_to_date := true
            logs := st.logs ++
              ["COND(A) seems to be greater than CONLIM, check input data"] },
          true)
      else if (lsmrO A b).2 = 7 then
        ({ st with
            c := (lsmrO A b).1
            up_to_date := true
            logs := st.logs ++
              ["LSMR reached iteration limit and did not converge"] }, true)
      else ({ st with up_to_date := true }, true)) := rfl

theorem solveDispatch_str_fallback (cgO lsmrO) (s : String)
    (hs : ¬(s = "cg" ∨ s = "lsmr")) (st : State F) (A : AssembledMat F)
    (b : List (FV F)) :
    solveDispatch cgO lsmrO (SolverArg.strArg s) st A b =
      solveDispatch cgO lsmrO (SolverArg.strArg "cg") st A b := by
  simp only [solveDispatch, normalizeStrategy]
  rw [if_neg hs]
  rfl

/-- C10: calling `solve_system` with the default `None` solver (neither a
callable nor a string) always returns `False`, but only after resetting `c`
to an all-NaN vector of length `n_nodes` (destroying any previous solution)
and assembling the matrix; `up_to_date` and the constraint registries are
left unmodified on this path. -/
theorem solve_system_none_solver_spec (cgO lsmrO) (st : State F)
    (h : (build_matrix (resetC st)).isSome = true) :
    solve_system cgO lsmrO SolverArg.noneArg st = Except.ok (resetC st, false)
    ∧ (resetC st).c = List.replicate (n_nodes st) none
    ∧ (resetC st).up_to_date = st.up_to_date
    ∧ (resetC st).constraints = st.constraints := by
  obtain ⟨p, hp⟩ := Option.isSome_iff_exists.mp h
  obtain ⟨M, bv⟩ := p
  refine ⟨?_, rfl, rfl, rfl⟩
  rw [solve_system_eq_dispatch cgO lsmrO _ st M bv hp]
  rfl

/-- C10 witness: the concrete state `stFix`. -/
theorem solve_system_none_solver_spec_witness :
    ((build_matrix (resetC stFix)).isSome = true)
    ∧ (solve_system cgW lsmrW SolverArg.noneArg stFix =
          Except.ok (resetC stFix, false)
       ∧ (resetC stFix).c = List.replicate (n_nodes stFix) none
       ∧ (resetC stFix).up_to_date = stFix.up_to_date
       ∧ (resetC stFix).constraints = stFix.constraints) :=
  ⟨rfl, solve_system_none_solver_spec cgW lsmrW stFix rfl⟩

/-- C4 (amended): `solve_system` returns `True` iff the solver argument is a
callable or a string (unrecognised strings fall back to cg and still return
`True`), not iff a solution was accepted; under the "lsmr" strategy, when
the backend's termination code is 3 or 6 (ill-conditioning) the computed
result is dropped and `c` keeps its prior value, the all-NaN pre-solve
reset, while the call still returns `True`. -/
theorem solve_system_return_spec (cgO lsmrO) (arg : SolverArg F)
    (st : State F) (h : (build_matrix (resetC st)).isSome = true) :
    ∃ st' r M bv, build_matrix (resetC st) = some (M, bv)
      ∧ solve_system cgO lsmrO arg st = Except.ok (st', r)
      ∧ r = isCallableOrStr arg
      ∧ (arg = SolverArg.strArg "lsmr" →
          ((lsmrO M bv).2 = 3 ∨ (lsmrO M bv).2 = 6) →
          st'.c = List.replicate (n_nodes st) none ∧ r = true) := by
  obtain ⟨p, hp⟩ := Option.isSome_iff_exists.mp h
  obtain ⟨M, bv⟩ := p
  have hd := solve_system_eq_dispatch cgO lsmrO arg st M bv hp
  cases arg with
  | noneArg =>
    exact ⟨resetC st, false, M, bv, hp, hd.trans rfl, rfl,
      fun hEq => by cases hEq⟩
  | fnArg f =>
    have hdisp : solveDispatch cgO lsmrO (SolverArg.fnArg f) (resetC st) M bv
        = ({ resetC st with
              c := f M bv
              up_to_date := true
              logs := st.logs ++ ["Using custom solver"] }, true) := rfl
    exact ⟨_, true, M, bv, hp, hd.trans (congrArg Except.ok hdisp),
      rfl, fun hEq => by cases hEq⟩
  | strArg s =>
    by_cases hs1 : s = "cg"
    · subst hs1
      have hdisp : solveDispatch cgO lsmrO (SolverArg.strArg "cg")
          (resetC st) M bv
          = ({ resetC st with
                c := (cgO M bv).1
                up_to_date := true
                logs := if 0 < (cgO M bv).2 then st.logs ++
                    ["CG reached iteration limit and did not converge"]
                  else st.logs }, true) := rfl
      exact ⟨_, true, M, bv, hp, hd.trans (congrArg Except.ok hdisp),
        rfl, fun hEq => absurd (SolverArg.strArg.inj hEq) (by decide)⟩
    · by_cases hs2 : s = "lsmr"
      · subst hs2
        by_cases h1 : (lsmrO M bv).2 = 1 ∨ (lsmrO M bv).2 = 4 ∨
            (lsmrO M bv).2 = 2 ∨ (lsmrO M bv).2 = 5
        · have hdisp : solveDispatch cgO lsmrO (SolverArg.strArg "lsmr")
              (resetC st) M bv =
              ({ resetC st with
                  c := (lsmrO M bv).1
                  up_to_date := true }, true) := by
            rw [solveDispatch_lsmr, if_pos h1]
          refine ⟨_, true, M, bv, hp,
            hd.trans (congrArg Except.ok hdisp), rfl, ?_⟩
          intro _ h36
          rcases h36 with h36 | h36 <;> rcases h1 with h1 | h1 | h1 | h1 <;>
            omega
        · by_cases h0 : (lsmrO M bv).2 = 0
          · have hdisp : solveDispatch cgO lsmrO (SolverArg.strArg "lsmr")
                (resetC st) M bv =
                ({ resetC st with
                    up_to_date := true
                    logs := st.logs ++
                      ["Solution to least squares problem is all zeros"] },
                 true) := by
              rw [solveDispatch_lsmr, if_neg h1, if_pos h0]; rfl
            refine ⟨_, true, M, bv, hp,
              hd.trans (congrArg Except.ok hdisp), rfl, ?_⟩
            intro _ h36; rcases h36 with h36 | h36 <;> omega
          · by_cases h36 : (lsmrO M bv).2 = 3 ∨ (lsmrO M bv).2 = 6
            · have hdisp : solveDispatch cgO lsmrO (SolverArg.strArg "lsmr")
                  (resetC st) M bv =
                  ({ resetC st with
                      up_to_date := true
                      logs := st.logs ++
                        ["COND(A) seems to be greater than CONLIM, check input data"] },
                   true) := by
                rw [solveDispatch_lsmr, if_neg h1, if_neg h0, if_pos h36]; rfl
              exact ⟨_, true, M, bv, hp,
                hd.trans (congrArg Except.ok hdisp), rfl,
                fun _ _ => ⟨rfl, rfl⟩⟩
            · by_cases h7 : (lsmrO M bv).2 = 7
              · have hdisp : solveDispatch cgO lsmrO
                    (SolverArg.strArg "lsmr") (resetC st) M bv =
                    ({ resetC st with
                        c := (lsmrO M bv).1
                        up_to_date := true
                        logs := st.logs ++
                          ["LSMR reached iteration limit and did not converge"] },
                     true) := by
                  rw [solveDispatch_lsmr, if_neg h1, if_neg h0, if_neg h36,
                    if_pos h7]
                  rfl
                refine ⟨_, true, M, bv, hp,
                  hd.trans (congrArg Except.ok hdisp), rfl, ?_⟩
                intro _ hc; exact absurd hc h36
              · have hdisp : solveDispatch cgO lsmrO
                    (SolverArg.strArg "lsmr") (resetC st) M bv =
                    ({ resetC st with up_to_date := true }, true) := by
                  rw [solveDispatch_lsmr, if_neg h1, if_neg h0, if_neg h36,
                    if_neg h7]
                refine ⟨_, true, M, bv, hp,
                  hd.trans (congrArg Except.ok hdisp), rfl, ?_⟩
                intro _ hc; exact absurd hc h36
      · have hdisp : solveDispatch cgO lsmrO (SolverArg.strArg s)
            (resetC st) M bv =
            ({ resetC st with
                c := (cgO M bv).1
                up_to_date := true
                logs := if 0 < (cgO M bv).2 then st.logs ++
                    ["CG reached iteration limit and did not converge"]
                  else st.logs }, true) := by
          rw [solveDispatch_str_fallback cgO lsmrO s
            (not_or.mpr ⟨hs1, hs2⟩)]
          rfl
        refine ⟨_, true, M, bv, hp,
          hd.trans (congrArg Except.ok hdisp), rfl, ?_⟩
        intro hEq
        exact absurd (by injection hEq) hs2

/-- C4 witness: the lsmr strategy on `stFix` with a backend signalling
istop = 3. -/
theorem solve_system_return_spec_witness :
    ((build_matrix (resetC stFix)).isSome = true)
    ∧ (∃ st' r M bv, build_matrix (resetC stFix) = some (M, bv)
        ∧ solve_system cgW lsmrW (SolverArg.strArg "lsmr") stFix =
            Except.ok (st', r)
        ∧ r = isCallableOrStr (SolverArg.strArg "lsmr" : SolverArg ℚ)
        ∧ ((SolverArg.strArg "lsmr" : SolverArg ℚ) =
              SolverArg.strArg "lsmr" →
            ((lsmrW M bv).2 = 3 ∨ (lsmrW M bv).2 = 6) →
            st'.c = List.replicate (n_nodes stFix) none ∧ r = true)) :=
  ⟨rfl, solve_system_return_spec cgW lsmrW (SolverArg.strArg "lsmr")
    stFix rfl⟩

theorem solveDispatch_true_up_to_date (cgO lsmrO) (arg : SolverArg F)
    (st : State F) (A : AssembledMat F) (b : List (FV F)) (st1 : State F)
    (h : solveDispatch cgO lsmrO arg st A b = (st1, true)) :
    st1.up_to_date = true := by
  cases arg with
  | noneArg =>
    have h' : ((st, false) : State F × Bool) = (st1, true) := h
    injection h' with h1 h2
    exact absurd h2 (by decide)
  | fnArg f =>
    have h' : (({ st with
        c := f A b
        up_to_date := true
        logs := st.logs ++ ["Using custom solver"] }, true) : State F × Bool)
        = (st1, true) := h
    injection h' with h1 h2
    rw [← h1]
  | strArg s =>
    by_cases hs1 : s = "cg"
    · subst hs1
      have h' : (({ st with
          c := (cgO A b).1
          up_to_date := true
          logs := if 0 < (cgO A b).2 then st.logs ++
              ["CG reached iteration limit and did not converge"]
            else st.logs }, true) : State F × Bool) = (st1, true) := h
      injection h' with h1 h2
      rw [← h1]
    · by_cases hs2 : s = "lsmr"
      · subst hs2
        rw [solveDispatch_lsmr] at h
        split at h <;>
          [skip; (split at h <;>
            [skip; (split at h <;>
              [skip; (split at h <;> skip)])])] <;>
        · injection h with h1 h2
          rw [← h1]
      · rw [solveDispatch_str_fallback cgO lsmrO s
          (not_or.mpr ⟨hs1, hs2⟩)] at h
        have h' : (({ st with
            c := (cgO A b).1
            up_to_date := true
            logs := if 0 < (cgO A b).2 then st.logs ++
                ["CG reached iteration limit and did not converge"]
              else st.logs }, true) : State F × Bool) = (st1, true) := h
        injection h' with h1 h2
        rw [← h1]

theorem evaluate_value_of_update (setup : State F → State F) (cgO lsmrO)
    (supE : List (List (FV F)) → List (FV F) → List (FV F))
    (st st1 : State F) (r : Option Bool) (locs : List (List (FV F)))
    (hu : update setup cgO lsmrO st = Except.ok (st1, r)) :
    ∃ vals, evaluate_value setup cgO lsmrO supE st locs =
      Except.ok (st1, vals) := by
  have hev : evaluate_value setup cgO lsmrO supE st locs =
      Except.ok (st1,
        (if 0 < (((List.zip locs (nanEqMask locs)).filter
            (fun p => !p.2)).map Prod.fst).length then
          scatterVals (nanEqMask locs)
            (supE (((List.zip locs (nanEqMask locs)).filter
              (fun p => !p.2)).map Prod.fst) st1.c)
        else List.replicate locs.length (some 0))) := by
    simp only [evaluate_value, hu]
  exact ⟨_, hev⟩

/-- C9: once a solve has succeeded (`solve_system` returned `(st1, True)`),
`st1.up_to_date` is true, and in that state `update()` performs no solve and
leaves the whole state — in particular the solution vector `c` — unchanged,
and `evaluate_value` (which calls `update()` first) likewise leaves the state
unchanged: at most one full solve happens per dirty period no matter how
many times `update()` or the evaluate methods are invoked. -/
theorem update_idempotent_spec (setup : State F → State F) (cgO lsmrO)
    (supE : List (List (FV F)) → List (FV F) → List (FV F))
    (arg : SolverArg F) (st0 st1 : State F) (locs : List (List (FV F)))
    (h : solve_system cgO lsmrO arg st0 = Except.ok (st1, true)) :
    st1.up_to_date = true
    ∧ (∃ r, update setup cgO lsmrO st1 = Except.ok (st1, r))
    ∧ (∃ vals, evaluate_value setup cgO lsmrO supE st1 locs =
        Except.ok (st1, vals)) := by
  have hut : st1.up_to_date = true := by
    cases hb : build_matrix (resetC st0) with
    | none =>
      have herr : solve_system cgO lsmrO arg st0 =
          Except.error "ValueError: blocks must be 2-D" := by
        simp only [solve_system, hb]
      rw [herr] at h
      exact absurd h (by simp)
    | some p =>
      obtain ⟨M, bv⟩ := p
      have hd := solve_system_eq_dispatch cgO lsmrO arg st0 M bv hb
      rw [hd] at h
      injection h with h'
      exact solveDispatch_true_up_to_date cgO lsmrO arg (resetC st0) M bv
        st1 h'
  have hu : ∃ r, update setup cgO lsmrO st1 = Except.ok (st1, r) := by
    cases hsv : st1.solver with
    | noneArg => exact ⟨some false, by simp [update, hsv]⟩
    | strArg s => exact ⟨none, by simp [update, hsv, hut]⟩
    | fnArg f => exact ⟨none, by simp [update, hsv, hut]⟩
  obtain ⟨r, hur⟩ := hu
  exact ⟨hut, ⟨r, hur⟩,
    evaluate_value_of_update setup cgO lsmrO supE st1 st1 r locs hur⟩

/-- C9 witness: after a successful cg solve on `stFix`, both `update` and
`evaluate_value` are state-preserving no-ops. -/
theorem update_idempotent_spec_witness :
    solve_system cgW lsmrW (SolverArg.strArg "cg") stFix =
      Except.ok (st1Fix, true)
    ∧ (st1Fix.up_to_date = true
       ∧ (∃ r, update id cgW lsmrW st1Fix = Except.ok (st1Fix, r))
       ∧ (∃ vals, evaluate_value id cgW lsmrW
            (fun pts _ => List.replicate pts.length (some 3)) st1Fix
            [[some 1, some 1, some 1]] = Except.ok (st1Fix, vals))) :=
  ⟨rfl, update_idempotent_spec id cgW lsmrW
    (fun pts _ => List.replicate pts.length (some 3))
    (SolverArg.strArg "cg") stFix st1Fix [[some 1, some 1, some 1]] rfl⟩

/-! ## C5: add_equality_constraints -/

theorem zip_map_filter (f : α → ℤ) (t : ℤ) :
    ∀ (ni : List α) (vs : List β),
    (List.zip (ni.map f) vs).filter (fun p => p.1 != t) =
      ((List.zip ni vs).filter (fun p => f p.1 != t)).map
        (fun p => (f p.1, p.2)) := by
  intro ni
  induction ni with
  | nil => intro vs; rfl
  | cons a rest ih =>
    intro vs
    cases vs with
    | nil => rfl
    | cons v vrest =>
      simp only [List.map_cons, List.zip_cons_cons, List.filter_cons]
      cases hfa : (f a != t) with
      | false => simpa [hfa] using ih vrest
      | true => simp [hfa, ih vrest]

theorem filter_zip_length_countP (pred : α → Bool) :
    ∀ (ni : List α) (vs : List β), vs.length = ni.length →
    ((List.zip ni vs).filter (fun p => pred p.1)).length =
      ni.countP pred := by
  intro ni
  induction ni with
  | nil => intro vs _; rfl
  | cons a rest ih =>
    intro vs hlen
    cases vs with
    | nil => simp at hlen
    | cons v vrest =>
      simp only [List.length_cons, Nat.succ_inj] at hlen
      simp only [List.zip_cons_cons, List.filter_cons, List.countP_cons]
      cases hfa : pred a with
      | false => simpa [hfa] using ih vrest hlen
      | true => simp [hfa, ih vrest hlen]

theorem lookup_replace (l : List (String × α)) (k : String) (v : α)
    (hc : (l.map Prod.fst).contains k = true) :
    (l.map (fun p => if p.1 == k then (k, v) else p)).lookup k = some v := by
  induction l with
  | nil => simp at hc
  | cons p r ih =>
    obtain ⟨k1, v1⟩ := p
    by_cases hpk : (k1 == k) = true
    · simp only [List.map_cons, if_pos hpk]
      simp [List.lookup]
    · have h1 : k1 ≠ k := by simpa using hpk
      have hkp : (k == k1) = false := by
        simp only [beq_eq_false_iff_ne]
        exact fun hEq => h1 hEq.symm
      have hc' : ((r.map Prod.fst).contains k) = true := by
        simp only [List.map_cons, List.contains_cons, hkp,
          Bool.false_or] at hc
        exact hc
      rw [List.map_cons, if_neg hpk]
      simp only [List.lookup, hkp]
      exact ih hc'

theorem lookup_append_single (l : List (String × α)) (k : String) (v : α)
    (hc : (l.map Prod.fst).contains k = false) :
    (l ++ [(k, v)]).lookup k = some v := by
  induction l with
  | nil => simp [List.lookup]
  | cons p r ih =>
    obtain ⟨k1, v1⟩ := p
    simp only [List.map_cons, List.contains_cons, Bool.or_eq_false_iff]
      at hc
    simp only [List.cons_append, List.lookup, hc.1]
    exact ih hc.2

theorem lookup_dictInsert (l : List (String × α)) (k : String) (v : α) :
    (dictInsert l k v).lookup k = some v := by
  unfold dictInsert
  by_cases hc : ((l.map Prod.fst).contains k) = true
  · rw [if_pos hc]
    exact lookup_replace l k v hc
  · rw [if_neg hc]
    exact lookup_append_single l k v (by simpa using hc)

theorem dictInsert_ne_nil (l : List (String × α)) (k : String) (v : α) :
    dictInsert l k v ≠ [] := by
  unfold dictInsert
  split
  · cases l with
    | nil => simp_all
    | cons p r => simp
  · simp

/-- C5: `add_equality_constraints` silently drops node indices whose region
mapping is the sentinel `-1`; the block stored under the given name holds
exactly the surviving entries — unit coefficients, the surviving target
values, the surviving region-mapped columns, and the consecutively assigned
rows starting at the previous `eq_const_c` — the shared counter `eq_const_c`
grows by exactly the surviving count, and that counter is the row dimension
of the equality bordering block `C` built by `add_equality_block`. -/
theorem add_equality_constraints_spec (st : State F) (node_idx : List ℕ)
    (values : List F) (name : String)
    (hb : ∀ i ∈ node_idx, i < st.region.length)
    (hv : values.length = node_idx.length) :
    ∃ st',
      add_equality_constraints st node_idx values name = Except.ok st'
      ∧ st'.equal_constraints.lookup name = some
          { A := List.replicate ((List.zip node_idx values).filter
              (fun p => (gi_map st.region).getD p.1 0 != -1)).length 1
            B := ((List.zip node_idx values).filter
              (fun p => (gi_map st.region).getD p.1 0 != -1)).map Prod.snd
            col := ((List.zip node_idx values).filter
              (fun p => (gi_map st.region).getD p.1 0 != -1)).map
                (fun p => (gi_map st.region).getD p.1 0)
            row := List.range' st.eq_const_c
              ((List.zip node_idx values).filter
                (fun p => (gi_map st.region).getD p.1 0 != -1)).length }
      ∧ st'.eq_const_c = st.eq_const_c + ((List.zip node_idx values).filter
          (fun p => (gi_map st.region).getD p.1 0 != -1)).length
      ∧ ((List.zip node_idx values).filter
          (fun p => (gi_map st.region).getD p.1 0 != -1)).length
          = node_idx.countP (fun i => (gi_map st.region).getD i 0 != -1)
      ∧ eq_block_shape st' = some (st.eq_const_c +
          ((List.zip node_idx values).filter
            (fun p => (gi_map st.region).getD p.1 0 != -1)).length,
          nx st) := by
  have hsk := zip_map_filter (fun i => (gi_map st.region).getD i 0) (-1)
    node_idx values
  have hlen : ((List.zip (node_idx.map
        (fun i => (gi_map st.region).getD i 0)) values).filter
        (fun p => p.1 != -1)).length =
      ((List.zip node_idx values).filter
        (fun p => (gi_map st.region).getD p.1 0 != -1)).length := by
    rw [hsk, List.length_map]
  refine ⟨{ st with
      equal_constraints := dictInsert st.equal_constraints name
        { A := List.replicate ((List.zip (node_idx.map
              (fun i => (gi_map st.region).getD i 0)) values).filter
              (fun p => p.1 != -1)).length 1
          B := ((List.zip (node_idx.map
              (fun i => (gi_map st.region).getD i 0)) values).filter
              (fun p => p.1 != -1)).map Prod.snd
          col := ((List.zip (node_idx.map
              (fun i => (gi_map st.region).getD i 0)) values).filter
              (fun p => p.1 != -1)).map Prod.fst
          row := List.range' st.eq_const_c
            ((List.zip (node_idx.map
              (fun i => (gi_map st.region).getD i 0)) values).filter
              (fun p => p.1 != -1)).length }
      eq_const_c := st.eq_const_c + ((List.zip (node_idx.map
          (fun i => (gi_map st.region).getD i 0)) values).filter
          (fun p => p.1 != -1)).length }, ?_, ?_, ?_, ?_, ?_⟩
  · unfold add_equality_constraints
    rw [if_neg ?hany, if_neg ?hvlen]
    case hany =>
      simp only [Bool.not_eq_true, List.any_eq_false,
        decide_eq_false_iff_not, not_le]
      exact hb
    case hvlen =>
      simp [hv]
  · rw [lookup_dictInsert]
    refine congrArg some ?_
    rw [hsk, List.length_map, List.map_map, List.map_map]
    rfl
  · show st.eq_const_c + _ = st.eq_const_c + _
    rw [hlen]
  · rw [← hlen, hsk, List.length_map]
    exact filter_zip_length_countP
      (fun i => (gi_map st.region).getD i 0 != -1) node_idx values hv
  · show eq_block_shape _ = _
    unfold eq_block_shape
    rw [if_neg (by
      simp only [List.isEmpty_iff]
      exact dictInsert_ne_nil _ _ _)]
    refine congrArg some ?_
    refine Prod.ext ?_ rfl
    show st.eq_const_c + _ = st.eq_const_c + _
    rw [hlen]

/-- C5 witness: a 3-node support with region mask `[true, false, true]`;
node index 1 is inactive and dropped, the two surviving constraints get
columns `[0, 1]`, rows `[0, 1]`, and `eq_const_c` becomes 2. -/
theorem add_equality_constraints_spec_witness :
    ∃ st' : State ℚ,
      add_equality_constraints
        (initStateR ([[some 0], [some 1], [some 2]] : List (List (FV ℚ)))
          [true, false, true] false) [0, 1, 2] [5, 6, 7] "eqc"
        = Except.ok st'
      ∧ st'.equal_constraints.lookup "eqc" = some
          { A := List.replicate ((List.zip [0, 1, 2] [(5 : ℚ), 6, 7]).filter
              (fun p => (gi_map [true, false, true]).getD p.1 0 != -1)).length 1
            B := ((List.zip [0, 1, 2] [(5 : ℚ), 6, 7]).filter
              (fun p => (gi_map [true, false, true]).getD p.1 0 != -1)).map
                Prod.snd
            col := ((List.zip [0, 1, 2] [(5 : ℚ), 6, 7]).filter
              (fun p => (gi_map [true, false, true]).getD p.1 0 != -1)).map
                (fun p => (gi_map [true, false, true]).getD p.1 0)
            row := List.range' 0 ((List.zip [0, 1, 2] [(5 : ℚ), 6, 7]).filter
              (fun p => (gi_map [true, false, true]).getD p.1 0 != -1)).length }
      ∧ st'.eq_const_c = 0 + ((List.zip [0, 1, 2] [(5 : ℚ), 6, 7]).filter
          (fun p => (gi_map [true, false, true]).getD p.1 0 != -1)).length
      ∧ ((List.zip [0, 1, 2] [(5 : ℚ), 6, 7]).filter
          (fun p => (gi_map [true, false, true]).getD p.1 0 != -1)).length
          = List.countP (fun i => (gi_map [true, false, true]).getD i 0 != -1)
              [0, 1, 2]
      ∧ eq_block_shape st' = some (0 + ((List.zip [0, 1, 2] [(5 : ℚ), 6, 7]).filter
          (fun p => (gi_map [true, false, true]).getD p.1 0 != -1)).length,
          nx (initStateR ([[some 0], [some 1], [some 2]] :
            List (List (FV ℚ))) [true, false, true] false)) :=
  add_equality_constraints_spec
    (initStateR ([[some 0], [some 1], [some 2]] : List (List (FV ℚ)))
      [true, false, true] false) [0, 1, 2] [5, 6, 7] "eqc"
    (by decide) (by decide)

/-! ## C6: row normalisation -/

theorem get?_zipWith (f : α → β → γ) :
    ∀ (l1 : List α) (l2 : List β) (i : ℕ),
    (List.zipWith f l1 l2).get? i =
      match l1.get? i, l2.get? i with
      | some a, some b => some (f a b)
      | _, _ => none := by
  intro l1
  induction l1 with
  | nil => intro l2 i; cases l2 <;> cases i <;> rfl
  | cons a r1 ih =>
    intro l2 i
    cases l2 with
    | nil =>
      cases i with
      | zero => rfl
      | succ j =>
        cases h : (a :: r1).get? (j + 1) <;> simp [h]
    | cons b r2 =>
      cases i with
      | zero => rfl
      | succ j => simpa using ih r2 j

theorem zeroNaNRows_id (A : List (List (FV F))) (h : hasNaNMat A = false) :
    zeroNaNRows A = A := by
  induction A with
  | nil => rfl
  | cons r rest ih =>
    unfold hasNaNMat at h
    simp only [List.any_cons, Bool.or_eq_false_iff] at h
    have hrest : hasNaNMat rest = false := h.2
    unfold zeroNaNRows
    simp only [List.map_cons, if_neg (by simp [h.1] : ¬hasNaNRow r = true)]
    have hih := ih hrest
    unfold zeroNaNRows at hih
    rw [hih]

theorem nanfree_row_eq_map_some (r : List (FV F)) (h : hasNaNRow r = false) :
    ∃ vs : List F, r = vs.map some := by
  induction r with
  | nil => exact ⟨[], rfl⟩
  | cons x rest ih =>
    unfold hasNaNRow at h ih
    simp only [List.any_cons, Bool.or_eq_false_iff] at h
    obtain ⟨vs, hvs⟩ := ih h.2
    cases x with
    | none => simp at h
    | some v => exact ⟨v :: vs, by simp [hvs]⟩

theorem sumSqF_map_some (vs : List F) :
    sumSqF (vs.map some) = some (sumSq vs) := by
  induction vs with
  | nil => rfl
  | cons v rest ih =>
    simp only [sumSqF, sumF, sumSq, List.map_cons, List.foldr_cons] at *
    rw [ih]
    simp [mulF, addF]

theorem sumSq_nonneg (vs : List F) : 0 ≤ sumSq vs := by
  induction vs with
  | nil => simp [sumSq]
  | cons v rest ih =>
    simp only [sumSq, List.map_cons, List.sum_cons] at *
    exact add_nonneg (mul_self_nonneg v) ih

theorem sumSq_eq_zero (vs : List F) (h : sumSq vs = 0) :
    ∀ x ∈ vs, x = 0 := by
  induction vs with
  | nil => simp
  | cons v rest ih =>
    have hnn : 0 ≤ sumSq rest := sumSq_nonneg rest
    have hvv : 0 ≤ v * v := mul_self_nonneg v
    have hsum : v * v + sumSq rest = 0 := by
      simpa [sumSq] using h
    have h1 : v * v = 0 := le_antisymm (by linarith) hvv
    have h2 : sumSq rest = 0 := by linarith
    intro x hx
    rcases List.mem_cons.mp hx with hx | hx
    · subst hx
      exact mul_self_eq_zero.mp h1
    · exact ih h2 x hx

theorem sumSq_div (vs : List F) (v : F) (hv : v ≠ 0) :
    sumSq (vs.map (fun x => x / v)) = sumSq vs / (v * v) := by
  induction vs with
  | nil => simp [sumSq]
  | cons a rest ih =>
    simp only [sumSq, List.map_cons, List.map_map, List.sum_cons] at *
    rw [ih]
    field_simp

theorem isRowNorms_get (A : List (List (FV F))) (lengths : List (FV F))
    (h : isRowNorms A lengths = true) :
    A.length = lengths.length ∧
    ∀ i r ℓ, A.get? i = some r → lengths.get? i = some ℓ →
      isRowNorm r ℓ = true := by
  unfold isRowNorms at h
  rw [Bool.and_eq_true, beq_iff_eq, List.all_eq_true] at h
  refine ⟨h.1, ?_⟩
  intro i r ℓ hr hl
  have hz : (List.zipWith Prod.mk A lengths).get? i = some (r, ℓ) := by
    rw [get?_zipWith Prod.mk A lengths i, hr, hl]
  exact h.2 (r, ℓ) (List.get?_mem hz)

/-- Dissection of every `Except.ok` outcome of
`add_constraints_to_least_squares`: either the shape check failed and only
the log changed, or the processed block was appended, with all the length
side conditions enforced by the numpy runtime. -/
theorem add_ok_structure (st : State F) (A : List (List (FV F)))
    (B : List (FV F)) (idc : List (List (Option ℤ))) (lengths : List (FV F))
    (w : WeightArg F) (name : String) (st' : State F)
    (hok : add_constraints_to_least_squares st A B idc lengths w name =
      Except.ok st') :
    st'.nodes = st.nodes ∧ st'.region = st.region
    ∧ st'.equal_constraints = st.equal_constraints
    ∧ st'.eq_const_c = st.eq_const_c
    ∧ ((shapeEqB A idc = false ∧ st'.constraints = st.constraints) ∨
       (shapeEqB A idc = true ∧
        ∃ nm wArr idcN,
          st'.constraints = st.constraints ++
            [(nm, ⟨A.length, nx st, normA (zeroNaNRows A) lengths, idcN,
              normB B lengths, wArr⟩)]
          ∧ lengths.length = A.length ∧ B.length = A.length
          ∧ wArr.length = A.length)) := by
  unfold add_constraints_to_least_squares at hok
  by_cases hsh : shapeEqB A idc = false
  · rw [if_pos hsh] at hok
    injection hok with hok
    rw [← hok]
    exact ⟨rfl, rfl, rfl, rfl, Or.inl ⟨hsh, rfl⟩⟩
  · rw [if_neg hsh] at hok
    by_cases hlen : ((lengths.length != A.length) ||
        (B.length != A.length)) = true
    · rw [if_pos hlen] at hok
      exact absurd hok (by simp)
    · rw [if_neg hlen] at hok
      simp only [Bool.or_eq_true, bne_iff_ne, not_or, Decidable.not_not,
        ne_eq] at hlen
      cases hw : weightArr w A.length with
      | error e => rw [hw] at hok; exact absurd hok (by simp)
      | ok wArr =>
        rw [hw] at hok
        simp only [] at hok
        by_cases hwl : (wArr.length != A.length) = true
        · rw [if_pos hwl] at hok
          exact absurd hok (by simp)
        · rw [if_neg hwl] at hok
          cases hr : resolve_name (st.constraints.map Prod.fst) name
              (st.constraints.length + 2) name with
          | none => rw [hr] at hok; exact absurd hok (by simp)
          | some nm =>
            rw [hr] at hok
            cases ht : toIdxMat (nx st) idc with
            | error e => rw [ht] at hok; exact absurd hok (by simp)
            | ok idcN =>
              rw [ht] at hok
              injection hok with hok
              rw [← hok]
              refine ⟨rfl, rfl, rfl, rfl, Or.inr ⟨by simpa using hsh,
                nm, wArr, idcN, rfl, hlen.1, hlen.2, ?_⟩⟩
              simpa using hwl

/-- C6: for every soft-constraint block accepted by
`add_constraints_to_least_squares` (stated for NaN-free coefficient rows,
with `lengths` the Euclidean row norms): no row is dropped; every row whose
norm `ℓ` is positive is stored divided by `ℓ` — so its sum of squares, i.e.
its squared Euclidean norm, is exactly 1 — and its `b` entry is divided by
the same `ℓ`; every row with zero norm is stored unchanged, is an all-zero
row, and keeps its `b` entry. -/
theorem row_normalization_spec (st : State F) (A : List (List (FV F)))
    (B : List (FV F)) (idc : List (List (Option ℤ))) (lengths : List (FV F))
    (w : WeightArg F) (name : String) (st' : State F)
    (hnorm : isRowNorms A lengths = true)
    (hnan : hasNaNMat A = false)
    (hshape : shapeEqB A idc = true)
    (hok : add_constraints_to_least_squares st A B idc lengths w name =
      Except.ok st') :
    ∃ nm bl, st'.constraints = st.constraints ++ [(nm, bl)]
      ∧ bl.nRows = A.length ∧ bl.Avals.length = A.length
      ∧ bl.b.length = A.length
      ∧ ∀ i r, A.get? i = some r →
          ∃ ℓ, lengths.get? i = some (some ℓ) ∧ 0 ≤ ℓ
          ∧ (0 < ℓ →
              bl.Avals.get? i = some (r.map (fun x => divF x (some ℓ)))
              ∧ sumSqF (r.map (fun x => divF x (some ℓ))) = some 1
              ∧ ∀ bo, B.get? i = some bo →
                  bl.b.get? i = some (divF bo (some ℓ)))
          ∧ (ℓ = 0 →
              bl.Avals.get? i = some r
              ∧ (∀ x ∈ r, x = some 0)
              ∧ ∀ bo, B.get? i = some bo → bl.b.get? i = some bo) := by
  obtain ⟨-, -, -, -, hcase⟩ := add_ok_structure st A B idc lengths w name
    st' hok
  rcases hcase with ⟨hsh, -⟩ | ⟨-, nm, wArr, idcN, happ, hl, hB, -⟩
  · rw [hshape] at hsh
    exact absurd hsh (by simp)
  · have hzA : zeroNaNRows A = A := zeroNaNRows_id A hnan
    refine ⟨nm, _, happ, rfl, ?_, ?_, ?_⟩
    · show (normA (zeroNaNRows A) lengths).length = A.length
      rw [hzA]
      simp [normA, List.length_zipWith, hl]
    · show (normB B lengths).length = A.length
      simp [normB, List.length_zipWith, hl, hB]
    · intro i r hr
      have hmem : r ∈ A := List.get?_mem hr
      have hrnan : hasNaNRow r = false := by
        unfold hasNaNMat at hnan
        rw [List.any_eq_false] at hnan
        simpa using hnan r hmem
      obtain ⟨vs, hvs⟩ := nanfree_row_eq_map_some r hrnan
      have hiA : i < A.length := by
        rcases List.get?_eq_some.mp hr with ⟨hh, -⟩
        exact hh
      have hiL : i < lengths.length := by rw [hl]; exact hiA
      have hlg : lengths.get? i = some (lengths.get ⟨i, hiL⟩) :=
        List.get?_eq_get hiL
      have hrn : isRowNorm r (lengths.get ⟨i, hiL⟩) = true :=
        (isRowNorms_get A lengths hnorm).2 i r _ hr hlg
      have hss : sumSqF r = some (sumSq vs) := by
        rw [hvs]; exact sumSqF_map_some vs
      unfold isRowNorm at hrn
      rw [hss] at hrn
      cases hlv : lengths.get ⟨i, hiL⟩ with
      | none => rw [hlv] at hrn; exact absurd hrn (by simp)
      | some v =>
        rw [hlv] at hrn
        simp only [Bool.and_eq_true, decide_eq_true_eq] at hrn
        obtain ⟨hv0, hvsq⟩ := hrn
        refine ⟨v, by rw [hlg, hlv], hv0, ?_, ?_⟩
        · intro hpos
          have hgt : gtZeroF (some v) = true := by
            simp [gtZeroF, hpos]
          have hvne : v ≠ 0 := ne_of_gt hpos
          have hAv : (normA (zeroNaNRows A) lengths).get? i =
              some (r.map (fun x => divF x (some v))) := by
            rw [hzA]
            rw [show normA A lengths = List.zipWith
              (fun r ℓ => if gtZeroF ℓ then r.map (fun x => divF x ℓ)
                else r) A lengths from rfl]
            rw [get?_zipWith _ A lengths i, hr, hlg, hlv]
            simp [hgt]
          refine ⟨hAv, ?_, ?_⟩
          · rw [hvs, List.map_map]
            have hmap : (fun x => divF x (some v)) ∘ some =
                some ∘ (fun x : F => x / v) := by
              funext x
              simp [divF, Function.comp, hvne]
            rw [hmap, ← List.map_map, sumSqF_map_some, sumSq_div vs v hvne,
              ← hvsq]
            rw [div_self (by positivity)]
          · intro bo hbo
            show (normB B lengths).get? i = _
            rw [show normB B lengths = List.zipWith
              (fun b ℓ => if gtZeroF ℓ then divF b ℓ else b) B lengths
              from rfl]
            rw [get?_zipWith _ B lengths i, hbo, hlg, hlv]
            simp [hgt]
        · intro hzero
          subst hzero
          have hgt : gtZeroF (some (0 : F)) = false := by
            simp [gtZeroF]
          have hAv : (normA (zeroNaNRows A) lengths).get? i = some r := by
            rw [hzA]
            rw [show normA A lengths = List.zipWith
              (fun r ℓ => if gtZeroF ℓ then r.map (fun x => divF x ℓ)
                else r) A lengths from rfl]
            rw [get?_zipWith _ A lengths i, hr, hlg, hlv]
            simp [hgt]
          refine ⟨hAv, ?_, ?_⟩
          · intro x hx
            rw [hvs] at hx
            obtain ⟨y, hy, hxy⟩ := List.mem_map.mp hx
            have : y = 0 := sumSq_eq_zero vs (by
              rw [← hvsq]; ring) y hy
            rw [← hxy, this]
          · intro bo hbo
            show (normB B lengths).get? i = _
            rw [show normB B lengths = List.zipWith
              (fun b ℓ => if gtZeroF ℓ then divF b ℓ else b) B lengths
              from rfl]
            rw [get?_zipWith _ B lengths i, hbo, hlg, hlv]
            simp [hgt]

/-- The state produced by the concrete C6 witness run: rows `[3, 4]`
(norm 5) and `[0, 0]` (norm 0), targets `[10, 2]`. -/
def stC6 : State ℚ :=
  ((add_constraints_to_least_squares
    (initState ([[some 0], [some 0]] : List (List (FV ℚ))) false)
    [[some 3, some 4], [some 0, some 0]] [some 10, some 2]
    [[some 0, some 1], [some 0, some 1]] [some 5, some 0]
    (WeightArg.scalar 1) "w").toOption).getD
      (initState ([] : List (List (FV ℚ))) false)

/-- C6 witness: a block with rows `[3, 4]` (norm 5) and `[0, 0]` (norm 0):
the first stored row is divided by 5 with squared norm 1 and its `b` scaled
identically; the zero row is preserved as a zero row with its `b` intact. -/
theorem row_normalization_spec_witness :
    ∃ nm bl, stC6.constraints =
        (initState ([[some 0], [some 0]] : List (List (FV ℚ)))
          false).constraints ++ [(nm, bl)]
      ∧ bl.nRows = ([[some 3, some 4], [some 0, some 0]] :
          List (List (FV ℚ))).length
      ∧ bl.Avals.length = ([[some 3, some 4], [some 0, some 0]] :
          List (List (FV ℚ))).length
      ∧ bl.b.length = ([[some 3, some 4], [some 0, some 0]] :
          List (List (FV ℚ))).length
      ∧ ∀ i r, ([[some 3, some 4], [some 0, some 0]] :
            List (List (FV ℚ))).get? i = some r →
          ∃ ℓ, ([some 5, some 0] : List (FV ℚ)).get? i = some (some ℓ)
          ∧ 0 ≤ ℓ
          ∧ (0 < ℓ →
              bl.Avals.get? i = some (r.map (fun x => divF x (some ℓ)))
              ∧ sumSqF (r.map (fun x => divF x (some ℓ))) = some 1
              ∧ ∀ bo, ([some 10, some 2] : List (FV ℚ)).get? i = some bo →
                  bl.b.get? i = some (divF bo (some ℓ)))
          ∧ (ℓ = 0 →
              bl.Avals.get? i = some r
              ∧ (∀ x ∈ r, x = some 0)
              ∧ ∀ bo, ([some 10, some 2] : List (FV ℚ)).get? i = some bo →
                  bl.b.get? i = some bo) :=
  row_normalization_spec
    (initState ([[some 0], [some 0]] : List (List (FV ℚ))) false)
    [[some 3, some 4], [some 0, some 0]] [some 10, some 2]
    [[some 0, some 1], [some 0, some 1]] [some 5, some 0]
    (WeightArg.scalar 1) "w" stC6
    (by
      simp only [isRowNorms, isRowNorm, sumSqF, sumF, mulF, addF,
        List.map_cons, List.map_nil, List.foldr_cons, List.foldr_nil,
        List.zip_cons_cons, List.all_cons, List.all_nil, List.length_cons,
        List.length_nil, Bool.and_eq_true, beq_iff_eq, decide_eq_true_eq]
      norm_num)
    (by decide) (by decide) rfl

/-! ## C7: shape of the assembled matrix -/

/-- Invariant of reachable states: every registered block's declared column
count is `nx`, and its `b` and `w` have one entry per declared row. -/
theorem reachable_blocks_wf (st : State F) (h : ReachableSoft st) :
    ∀ p ∈ st.constraints, p.2.nCols = nx st ∧ p.2.b.length = p.2.nRows
      ∧ p.2.w.length = p.2.nRows := by
  induction h with
  | init nodes region utd hlen =>
    intro p hp
    simp [initStateR] at hp
  | step st A B idc lengths w name st' hreach hok ih =>
    obtain ⟨hn, hr, -, -, hcase⟩ := add_ok_structure _ _ _ _ _ _ _ _ hok
    have hnx : nx st' = nx st := by unfold nx; rw [hn, hr]
    rcases hcase with ⟨-, hc⟩ | ⟨-, nm, wArr, idcN, hc, hl, hB, hw⟩
    · intro p hp
      rw [hc] at hp
      rw [hnx]
      exact ih p hp
    · intro p hp
      rw [hc] at hp
      rcases List.mem_append.mp hp with hp | hp
      · rw [hnx]
        exact ih p hp
      · simp only [List.mem_singleton] at hp
        subst hp
        refine ⟨by rw [hnx], ?_, hw⟩
        show (normB B lengths).length = A.length
        simp [normB, List.length_zipWith, hl, hB]

/-- C7: for every state reachable by a sequence of accepted soft
constraints, when `build_matrix` succeeds the assembled matrix has row count
equal to the sum of the row counts of the registered blocks whose weight
array is non-empty (empty-weight blocks are filtered out and contribute no
rows), column count exactly `nx`, and the stacked `b` vector has exactly one
entry per matrix row. -/
theorem build_matrix_shape_spec (st : State F) (h : ReachableSoft st)
    (M : AssembledMat F) (bv : List (FV F))
    (hb : build_matrix st = some (M, bv)) :
    M.rows = ((st.constraints.filter (fun p => !p.2.w.isEmpty)).map
      (fun p => p.2.nRows)).sum
    ∧ M.cols = nx st
    ∧ bv.length = M.rows := by
  have hwf := reachable_blocks_wf st h
  have hsub : ∀ p ∈ st.constraints.filter (fun p => !p.2.w.isEmpty),
      p.2.nCols = nx st ∧ p.2.b.length = p.2.nRows
        ∧ p.2.w.length = p.2.nRows :=
    fun p hp => hwf p (List.mem_of_mem_filter hp)
  unfold build_matrix at hb
  cases hf : st.constraints.filter (fun p => !p.2.w.isEmpty) with
  | nil => rw [hf] at hb; exact absurd hb (by simp)
  | cons p0 rest =>
    rw [hf] at hb
    rw [hf] at hsub
    by_cases hall : (rest.all (fun p => p.2.nCols == p0.2.nCols)) = true
    · simp only [hall, if_true, Option.some.injEq, Prod.mk.injEq] at hb
      obtain ⟨hM, hbv⟩ := hb
      subst hM
      subst hbv
      refine ⟨rfl, ?_, ?_⟩
      · exact (hsub p0 (List.mem_cons_self p0 rest)).1
      · show (((p0 :: rest).map (fun p =>
          List.zipWith mulF p.2.b (p.2.w.map some))).flatten).length = _
        rw [List.length_flatten, List.map_map]
        refine congrArg List.sum ?_
        refine List.map_congr_left ?_
        intro p hp
        obtain ⟨-, hbl, hwl⟩ := hsub p hp
        show (List.zipWith mulF p.2.b (p.2.w.map some)).length = p.2.nRows
        simp [List.length_zipWith, hbl, hwl]
    · rw [Bool.not_eq_true] at hall
      simp [hall] at hb

/-- The state produced by the concrete C7 witness run: one accepted block
with one row on a 2-node support. -/
def stC7 : State ℚ :=
  ((add_constraints_to_least_squares
    (initState ([[some 0], [some 7]] : List (List (FV ℚ))) false)
    [[some 1, some 0]] [some 1] [[some 0, some 1]] [some 1]
    (WeightArg.scalar 1) "blk").toOption).getD
      (initState ([] : List (List (FV ℚ))) false)

/-- C7 witness: on the concrete reachable state `stC7`, the assembled matrix
is 1 x 2 with a 1-entry `b`. -/
theorem build_matrix_shape_spec_witness :
    ∃ (M : AssembledMat ℚ) (bv : List (FV ℚ)),
      build_matrix stC7 = some (M, bv)
      ∧ M.rows = ((stC7.constraints.filter (fun p => !p.2.w.isEmpty)).map
          (fun p => p.2.nRows)).sum
      ∧ M.cols = nx stC7
      ∧ bv.length = M.rows :=
  ⟨_, _, rfl, build_matrix_shape_spec stC7
    (ReachableSoft.step
      (initStateR [[some 0], [some 7]] [true, true] false)
      [[some 1, some 0]] [some 1] [[some 0, some 1]] [some 1]
      (WeightArg.scalar 1) "blk" stC7
      (ReachableSoft.init [[some 0], [some 7]] [true, true] false
        (by decide))
      rfl) _ _ rfl⟩

end DiscreteInterp
